import Mathlib

/-!
Verification of the onboardai frontend (React/TypeScript) client core:
file validation, upload orchestration, chat session store, feedback
annotation and credential saving. The TypeScript sources are shallowly
embedded as Lean functions; JavaScript string primitives used by the
code (`split`, `toLowerCase`, `trim`, `||` on strings, `Math.round`)
are modelled explicitly so that all definitions compute.
-/

namespace OnboardAI

/-! ## JavaScript string primitives -/

/-- JavaScript `s.split(sep)` for a single-character separator, on the
character list of the string. `"".split('.')` is `[""]`, `"a..b"` is
`["a","","b"]`. -/
def jsSplitChar (sep : Char) : List Char → List (List Char)
  | [] => [[]]
  | c :: rest =>
    let r := jsSplitChar sep rest
    if c = sep then [] :: r
    else
      match r with
      | [] => [[c]]
      | h :: t => (c :: h) :: t

/-- JavaScript `s.split(sep)` on strings. -/
def jsSplit (sep : Char) (s : String) : List String :=
  (jsSplitChar sep s.data).map String.mk

/-- ASCII lower-casing of one character, as `toLowerCase` acts on the
characters appearing here. -/
def jsLowerChar (c : Char) : Char :=
  if 'A' ≤ c ∧ c ≤ 'Z' then Char.ofNat (c.toNat + 32) else c

/-- JavaScript `s.toLowerCase()`. -/
def jsToLowerCase (s : String) : String := String.mk (s.data.map jsLowerChar)

/-- Whitespace as stripped by JavaScript `trim` (the forms that occur
in practice: space, tab, newline, carriage return). -/
def jsIsWs (c : Char) : Bool := c = ' ' ∨ c = '\t' ∨ c = '\n' ∨ c = '\r'

/-- JavaScript `s.trim()`. -/
def jsTrim (s : String) : String :=
  String.mk ((s.data.dropWhile jsIsWs).reverse.dropWhile jsIsWs).reverse

/-- JavaScript `a || b` on strings: `a` unless `a` is falsy (empty). -/
def jsOr (a b : String) : String := if a = "" then b else a

/-! ## FileValidationGate (`Upload.tsx`: `validateFile`) -/

/-- The constant `MAX_FILE_SIZE = 50 * 1024 * 1024` (bytes). -/
def MAX_FILE_SIZE : Nat := 50 * 1024 * 1024

/-- The constant `ALLOWED_TYPES = ['.pdf', '.docx', '.md', '.html', '.txt']`. -/
def ALLOWED_TYPES : List String := [".pdf", ".docx", ".md", ".html", ".txt"]

/-- The extension candidate computed by `validateFile`:
`'.' + file.name.split('.').pop()?.toLowerCase()`. `split('.')` always
yields a non-empty array, so `pop()` is its last element. -/
def extensionOf (name : String) : String :=
  "." ++ jsToLowerCase ((jsSplit '.' name).getLastD "")

/-- Function `validateFile` from `Upload.tsx`: `null` (here `none`) means
accepted, otherwise the rejection reason is returned. -/
def validateFile (name : String) (size : Nat) : Option String :=
  if size > MAX_FILE_SIZE then
    some "File size exceeds 50MB limit."
  else if extensionOf name ∈ ALLOWED_TYPES then
    none
  else
    some "Invalid file type. Allowed types: .pdf, .docx, .md, .html, .txt"

/-! Helper lemmas about the embedded string primitives. -/

theorem dot_append_inj (a b : String) : "." ++ a = "." ++ b ↔ a = b := by
  constructor
  · intro h
    have hd : ("." ++ a).data = ("." ++ b).data := by rw [h]
    simp [String.data_append] at hd
    exact String.ext hd
  · intro h; rw [h]

theorem jsSplitChar_not_mem (sep : Char) (l : List Char) (h : sep ∉ l) :
    jsSplitChar sep l = [l] := by
  induction l with
  | nil => rfl
  | cons c rest ih =>
    have hc : c ≠ sep := fun hcs => h (hcs ▸ List.mem_cons_self c rest)
    have hr : sep ∉ rest := fun hm => h (List.mem_cons_of_mem c hm)
    simp [jsSplitChar, hc, ih hr]

/-- For a name with no `'.'`, `split('.')` returns the whole name as its
only element. -/
theorem jsSplit_no_dot (name : String) (h : '.' ∉ name.data) :
    jsSplit '.' name = [name] := by
  simp [jsSplit, jsSplitChar_not_mem '.' name.data h]

/-- Prepending the dot to an extension candidate and testing membership
in the allow-list is the same as testing the bare candidate against the
bare extensions. -/
theorem dot_mem_ALLOWED_iff (e : String) :
    ("." ++ e) ∈ ALLOWED_TYPES ↔ e ∈ ["pdf", "docx", "md", "html", "txt"] := by
  have h1 : (".pdf" : String) = "." ++ "pdf" := rfl
  have h2 : (".docx" : String) = "." ++ "docx" := rfl
  have h3 : (".md" : String) = "." ++ "md" := rfl
  have h4 : (".html" : String) = "." ++ "html" := rfl
  have h5 : (".txt" : String) = "." ++ "txt" := rfl
  simp only [ALLOWED_TYPES, h1, h2, h3, h4, h5, List.mem_cons,
    List.not_mem_nil, or_false, dot_append_inj]

/-- Claim C1. `validateFile` accepts a file iff its size is at most
50 MiB and the lowercased part of its name after the last `'.'` is one
of `pdf`, `docx`, `md`, `html`, `txt`; moreover, for a name containing
no `'.'`, the whole lowercased name is the extension candidate. -/
theorem C1_validateFile_accepts_iff :
    (∀ (name : String) (size : Nat),
      validateFile name size = none ↔
        size ≤ MAX_FILE_SIZE ∧
          jsToLowerCase ((jsSplit '.' name).getLastD "") ∈
            ["pdf", "docx", "md", "html", "txt"]) ∧
    (∀ (name : String) (size : Nat), '.' ∉ name.data →
      (validateFile name size = none ↔
        size ≤ MAX_FILE_SIZE ∧
          jsToLowerCase name ∈ ["pdf", "docx", "md", "html", "txt"])) := by
  have key : ∀ (name : String) (size : Nat),
      validateFile name size = none ↔
        size ≤ MAX_FILE_SIZE ∧
          jsToLowerCase ((jsSplit '.' name).getLastD "") ∈
            ["pdf", "docx", "md", "html", "txt"] := by
    intro name size
    unfold validateFile extensionOf
    split_ifs with hsz hmem
    · exact iff_of_false (by simp) (fun h => absurd h.1 (Nat.not_le.mpr hsz))
    · exact iff_of_true rfl ⟨Nat.not_lt.mp hsz, (dot_mem_ALLOWED_iff _).mp hmem⟩
    · exact iff_of_false (by simp)
        (fun h => hmem ((dot_mem_ALLOWED_iff _).mpr h.2))
  refine ⟨key, ?_⟩
  intro name size hnd
  have hlast : ([name].getLastD "") = name := rfl
  rw [key name size, jsSplit_no_dot name hnd, hlast]

/-- Witness for C1: the dot-less name `"pdf"` is accepted at size 100. -/
theorem C1_witness : validateFile "pdf" 100 = none :=
  (C1_validateFile_accepts_iff.2 "pdf" 100 (by decide)).mpr (by constructor <;> decide)

/-! ## Upload orchestration (`Upload.tsx`: state, `handleFileChange`,
`handleUpload`; `api.ts`: `uploadDocument`) -/

/-- The `Document` interface of `Upload.tsx`. -/
structure Document where
  name : String
  path : String
  chunks : Nat
  previews : List String
deriving DecidableEq

/-- Outcome of one `uploadDocument` call as observed by `handleUpload`:
either the response `{ chunks }`, or the axios error shape inspected by
the `catch` block (`error.response` with `data.detail` / `data.message`,
`error.request` with no response, or a setup error with `error.message`).
A missing or falsy string field is modelled as `""`. -/
inductive UploadResult where
  | ok (chunks : Nat)
  | httpError (detail : String) (message : String)
  | noResponse
  | setupError (message : String)
deriving DecidableEq

/-- The error message computed by the `catch` block of `handleUpload`:
`error.response.data.detail || error.response.data.message || default`,
`'Server not responding. Please try again later.'` when no response was
received, or `error.message || default`. -/
def uploadErrorMessage : UploadResult → String
  | .httpError detail message =>
      jsOr detail (jsOr message "Error uploading file. Please try again.")
  | .noResponse => "Server not responding. Please try again later."
  | .setupError message => jsOr message "Error uploading file. Please try again."
  | .ok _ => "Error uploading file. Please try again."

/-- JavaScript object update `{...prev, [k]: v}` for a string-keyed
record: an existing key keeps its position and gets the new value, a
fresh key is appended. -/
def updMap (m : List (String × Nat)) (k : String) (v : Nat) : List (String × Nat) :=
  if m.any (fun p => p.1 == k) then
    m.map (fun p => if p.1 == k then (k, v) else p)
  else
    m ++ [(k, v)]

/-- Reading `record[k]` from a string-keyed record. -/
def lookupMap (m : List (String × Nat)) (k : String) : Option Nat :=
  (m.find? (fun p => p.1 == k)).map (·.2)

/-- The `for (const file of files)` loop of `handleUpload`: each file's
upload is awaited before the next is issued; a success records the
returned chunk count under the file's name; the first failure throws,
ending the loop. Returns the recorded chunk counts, the files for which
an upload request was issued (in issue order), and the failure, if any,
with the failing file's name. -/
def uploadLoop (res : String → UploadResult) :
    List String → List (String × Nat) → List String →
    List (String × Nat) × List String × Option (String × UploadResult)
  | [], chunks, attempted => (chunks, attempted, none)
  | f :: rest, chunks, attempted =>
    match res f with
    | .ok c => uploadLoop res rest (updMap chunks f c) (attempted ++ [f])
    | e => (chunks, attempted ++ [f], some (f, e))

/-- The `Upload` component state touched by the upload flow. -/
structure UploadState where
  files : List String
  uploading : Bool
  message : String
  uploadProgress : List (String × Nat)
  chunksProcessed : List (String × Nat)
  documents : List Document
  loading : Bool
deriving DecidableEq

/-- Result of a whole `handleUpload` run: the final component state,
the files for which an upload request was issued, and the name of the
failing file if the batch aborted. -/
structure BatchRun where
  state : UploadState
  attempted : List String
  failed : Option String
deriving DecidableEq

/-- Function `handleUpload` from `Upload.tsx`, given the per-file outcome of
`uploadDocument` as `res`. It returns early on an empty batch;
otherwise it resets the progress and chunk maps, runs the sequential
loop, and on success replaces the message and clears `files`, while on
failure it replaces the message with the error text; the `finally`
block resets `uploading` and clears `uploadProgress` in both cases. -/
def handleUpload (s : UploadState) (res : String → UploadResult) : BatchRun :=
  if s.files = [] then ⟨s, [], none⟩
  else
    match uploadLoop res s.files [] [] with
    | (chunks, attempted, none) =>
      ⟨{ s with message := "All files uploaded successfully!", files := [],
                chunksProcessed := chunks, uploading := false,
                uploadProgress := [] },
       attempted, none⟩
    | (chunks, attempted, some (f, e)) =>
      ⟨{ s with message := uploadErrorMessage e,
                chunksProcessed := chunks, uploading := false,
                uploadProgress := [] },
       attempted, some f⟩

/-- The per-file error lines built by `handleFileChange`:
`` `${file.name}: ${error}` `` for each rejected file. -/
def fileChangeErrors (selected : List (String × Nat)) : List String :=
  selected.filterMap (fun f => (validateFile f.1 f.2).map (fun e => f.1 ++ ": " ++ e))

/-- Function `handleFileChange` from `Upload.tsx`: validates each selected file
independently, keeps the valid ones, reports errors, and resets the
recorded chunk counts for the new selection. -/
def handleFileChange (s : UploadState) (selected : List (String × Nat)) : UploadState :=
  let validFiles := (selected.filter (fun f => (validateFile f.1 f.2).isNone)).map Prod.fst
  let errors := fileChangeErrors selected
  if errors ≠ [] ∧ validFiles = [] then
    { s with message := String.intercalate "\n" errors }
  else
    { s with
      message :=
        if validFiles ≠ [] then
          (if errors ≠ [] then "Some files will be skipped due to errors." else "")
        else s.message,
      files := validFiles,
      chunksProcessed := [] }

/-! ## Upload progress reporting (`api.ts`: `uploadDocument`;
`Upload.tsx`: the `onProgress` callback) -/

/-- JavaScript `Math.round(num / den)` for naturals with `den > 0`
(round half away from zero, which for non-negative arguments is
`floor(x + 1/2)`). -/
def jsRound (num den : Nat) : Nat := (2 * num + den) / (2 * den)

/-- From `api.ts`: `Math.round((progressEvent.loaded * 100) / progressEvent.total)`. -/
def progressPercent (loaded total : Nat) : Nat := jsRound (loaded * 100) total

/-- The `onProgress` callback body in `handleUpload`:
`setUploadProgress(prev => ({ ...prev, [file.name]: progress }))`. -/
def applyProgress (m : List (String × Nat)) (name : String) (progress : Nat) :
    List (String × Nat) :=
  updMap m name progress

/-- Applying a sequence of progress-callback values in arrival order. -/
def applyProgressSeq (m : List (String × Nat)) (name : String) (ps : List Nat) :
    List (String × Nat) :=
  ps.foldl (fun acc p => applyProgress acc name p) m

/-! Lemmas about the sequential upload loop. -/

theorem uploadLoop_ok_front (res : String → UploadResult) (cfun : String → Nat)
    (pre : List String) :
    ∀ (rest : List String) (chunks : List (String × Nat)) (attempted : List String),
      (∀ f ∈ pre, res f = UploadResult.ok (cfun f)) →
      uploadLoop res (pre ++ rest) chunks attempted =
        uploadLoop res rest
          (pre.foldl (fun m f => updMap m f (cfun f)) chunks) (attempted ++ pre) := by
  induction pre with
  | nil => intro rest chunks attempted _; simp
  | cons f pre ih =>
    intro rest chunks attempted h
    have hf : res f = UploadResult.ok (cfun f) := h f (List.mem_cons_self f pre)
    have hpre : ∀ g ∈ pre, res g = UploadResult.ok (cfun g) :=
      fun g hg => h g (List.mem_cons_of_mem f hg)
    simp only [List.cons_append, uploadLoop, hf, List.append_eq]
    rw [ih rest (updMap chunks f (cfun f)) (attempted ++ [f]) hpre]
    simp [List.foldl_cons]

theorem uploadLoop_fail_head (res : String → UploadResult) (fk : String)
    (post : List String) (chunks : List (String × Nat)) (attempted : List String)
    (hfk : ∀ c, res fk ≠ UploadResult.ok c) :
    uploadLoop res (fk :: post) chunks attempted =
      (chunks, attempted ++ [fk], some (fk, res fk)) := by
  cases hres : res fk with
  | ok c => exact absurd hres (hfk c)
  | httpError d m => simp [uploadLoop, hres]
  | noResponse => simp [uploadLoop, hres]
  | setupError m => simp [uploadLoop, hres]

theorem foldl_updMap_fresh (cfun : String → Nat) (pre : List String) :
    ∀ (acc : List (String × Nat)), pre.Nodup →
      (∀ f ∈ pre, acc.any (fun p => p.1 == f) = false) →
      pre.foldl (fun m f => updMap m f (cfun f)) acc =
        acc ++ pre.map (fun f => (f, cfun f)) := by
  induction pre with
  | nil => intro acc _ _; simp
  | cons f pre ih =>
    intro acc hnd hfresh
    have hfacc : acc.any (fun p => p.1 == f) = false :=
      hfresh f (List.mem_cons_self f pre)
    have hstep : updMap acc f (cfun f) = acc ++ [(f, cfun f)] := by
      simp [updMap, hfacc]
    have hnd' : pre.Nodup := (List.nodup_cons.mp hnd).2
    have hne : f ∉ pre := (List.nodup_cons.mp hnd).1
    have hfresh' : ∀ g ∈ pre, (acc ++ [(f, cfun f)]).any (fun p => p.1 == g) = false := by
      intro g hg
      have h1 : acc.any (fun p => p.1 == g) = false := hfresh g (List.mem_cons_of_mem f hg)
      have h2 : f ≠ g := fun hfg => hne (hfg ▸ hg)
      simp [List.any_append, h1, h2]
    simp only [List.foldl_cons, hstep]
    rw [ih (acc ++ [(f, cfun f)]) hnd' hfresh']
    simp

/-- Claim C2. `handleUpload` is fail-fast and sequential: when every file
before position `k` succeeds and the file at position `k` fails, the
upload requests issued are exactly the batch's first `k + 1` files in
batch order (the files after the failing one are never attempted), the
first `k` files keep their recorded chunk counts, the failing file is
reported as the failure, and the displayed message is the error derived
from that file's failed call. -/
theorem C2_handleUpload_fail_fast (s : UploadState) (res : String → UploadResult)
    (pre post : List String) (fk : String) (cfun : String → Nat)
    (hfiles : s.files = pre ++ fk :: post)
    (hpre : ∀ f ∈ pre, res f = UploadResult.ok (cfun f))
    (hnodup : pre.Nodup)
    (hfk : ∀ c, res fk ≠ UploadResult.ok c) :
    (handleUpload s res).attempted = pre ++ [fk] ∧
    (handleUpload s res).state.chunksProcessed = pre.map (fun f => (f, cfun f)) ∧
    (handleUpload s res).failed = some fk ∧
    (handleUpload s res).state.message = uploadErrorMessage (res fk) := by
  have hne : s.files ≠ [] := by
    rw [hfiles]; exact List.append_ne_nil_of_right_ne_nil pre (List.cons_ne_nil fk post)
  have hloop : uploadLoop res s.files [] [] =
      (pre.map (fun f => (f, cfun f)), pre ++ [fk], some (fk, res fk)) := by
    rw [hfiles, uploadLoop_ok_front res cfun pre (fk :: post) [] [] hpre,
      foldl_updMap_fresh cfun pre [] hnodup (by intro f _; rfl),
      uploadLoop_fail_head res fk post _ _ hfk]
    simp
  unfold handleUpload
  simp [hne, hloop]

/-- Witness for C2: a three-file batch whose second file fails attempts
only the first two files and records only the first file's chunks. -/
theorem C2_witness :
    (handleUpload ⟨["a.pdf", "b.pdf", "c.pdf"], false, "", [], [], [], false⟩
        (fun f => if f = "a.pdf" then UploadResult.ok 3 else UploadResult.noResponse)).attempted
      = ["a.pdf", "b.pdf"] ∧
    (handleUpload ⟨["a.pdf", "b.pdf", "c.pdf"], false, "", [], [], [], false⟩
        (fun f => if f = "a.pdf" then UploadResult.ok 3 else UploadResult.noResponse)).state.chunksProcessed
      = [("a.pdf", 3)] ∧
    (handleUpload ⟨["a.pdf", "b.pdf", "c.pdf"], false, "", [], [], [], false⟩
        (fun f => if f = "a.pdf" then UploadResult.ok 3 else UploadResult.noResponse)).failed
      = some "b.pdf" := by
  have h := C2_handleUpload_fail_fast
    ⟨["a.pdf", "b.pdf", "c.pdf"], false, "", [], [], [], false⟩
    (fun f => if f = "a.pdf" then UploadResult.ok 3 else UploadResult.noResponse)
    ["a.pdf"] ["c.pdf"] "b.pdf" (fun _ => 3)
    rfl
    (by intro f hf; rw [List.mem_singleton.mp hf]; decide)
    (by decide)
    (by
      intro c h
      have h' : (if ("b.pdf" : String) = "a.pdf" then UploadResult.ok 3
          else UploadResult.noResponse) = UploadResult.ok c := h
      rw [if_neg (by decide)] at h'
      exact UploadResult.noConfusion h')
  exact ⟨h.1, h.2.1, h.2.2.1⟩

/-! Lemmas about the string-keyed record update. -/

theorem lookupMap_replace (k : String) (v : Nat) :
    ∀ (m : List (String × Nat)), m.any (fun p => p.1 == k) = true →
      lookupMap (m.map (fun p => if p.1 == k then (k, v) else p)) k = some v := by
  intro m
  induction m with
  | nil => intro h; simp at h
  | cons p rest ih =>
    intro h
    rw [List.map_cons]
    by_cases hp : (p.1 == k) = true
    · rw [if_pos hp]
      unfold lookupMap
      rw [List.find?_cons_of_pos _ (by simp)]
      rfl
    · rw [if_neg hp]
      have hrest : rest.any (fun p => p.1 == k) = true := by
        rcases List.any_eq_true.mp h with ⟨q, hq, hqk⟩
        rcases List.mem_cons.mp hq with hqp | hq'
        · exact absurd (hqp ▸ hqk) hp
        · exact List.any_eq_true.mpr ⟨q, hq', hqk⟩
      have hfind := ih hrest
      unfold lookupMap at hfind ⊢
      rw [List.find?_cons_of_neg (a := p) _ hp]
      exact hfind

theorem lookupMap_append_fresh (k : String) (v : Nat) :
    ∀ (m : List (String × Nat)), m.any (fun p => p.1 == k) = false →
      lookupMap (m ++ [(k, v)]) k = some v := by
  intro m
  induction m with
  | nil =>
    intro _
    unfold lookupMap
    rw [List.nil_append, List.find?_cons_of_pos _ (by simp)]
    rfl
  | cons p rest ih =>
    intro h
    rw [List.any_cons, Bool.or_eq_false_iff] at h
    have hfind := ih h.2
    unfold lookupMap at hfind ⊢
    rw [List.cons_append, List.find?_cons_of_neg (a := p) _ (by simp [h.1])]
    exact hfind

theorem lookupMap_updMap_self (m : List (String × Nat)) (k : String) (v : Nat) :
    lookupMap (updMap m k v) k = some v := by
  unfold updMap
  by_cases h : m.any (fun p => p.1 == k) = true
  · rw [if_pos h]; exact lookupMap_replace k v m h
  · rw [if_neg h]
    exact lookupMap_append_fresh k v m (Bool.not_eq_true _ ▸ eq_false_of_ne_true h)

/-- The stored progress value after applying a non-empty callback
sequence is the last callback value (last write wins). -/
theorem applyProgressSeq_lookup (name : String) :
    ∀ (ps : List Nat) (m0 : List (String × Nat)) (hne : ps ≠ []),
      lookupMap (applyProgressSeq m0 name ps) name = some (ps.getLast hne) := by
  intro ps
  induction ps with
  | nil => intro m0 hne; exact absurd rfl hne
  | cons p ps ih =>
    intro m0 _
    by_cases hps : ps = []
    · subst hps
      simp [applyProgressSeq, applyProgress, List.getLast, lookupMap_updMap_self]
    · have : applyProgressSeq m0 name (p :: ps) =
          applyProgressSeq (applyProgress m0 name p) name ps := rfl
      rw [this, ih (applyProgress m0 name p) hps, List.getLast_cons hps]

/-- Claim C4 counterexample. The progress handler stores whatever value
the callback reports: applying the callback values `[50, 30]` in
arrival order leaves the stored percentage at `30`, strictly below the
previously stored `50`, so the stored percentage is not monotonically
non-decreasing for an arbitrary callback sequence. -/
theorem C4_counterexample :
    lookupMap (applyProgress [] "a.pdf" 50) "a.pdf" = some 50 ∧
    lookupMap (applyProgress (applyProgress [] "a.pdf" 50) "a.pdf" 30) "a.pdf" = some 30 ∧
    (30 : Nat) < 50 := by
  refine ⟨?_, ?_, by decide⟩ <;> decide

/-- Claim C4 amended. The percentage computed by `uploadDocument` is
monotone in the reported loaded byte count; and the handler is
last-write-wins, so whenever the callback-value sequence itself is
non-decreasing (as it is when the transport reports non-decreasing
loaded counts), the stored percentage never regresses: a value stored
at an earlier point is at most the value stored after further
callbacks. The code does not itself enforce monotonicity. -/
theorem C4_progress_monotone :
    (∀ loaded1 loaded2 total : Nat, loaded1 ≤ loaded2 →
      progressPercent loaded1 total ≤ progressPercent loaded2 total) ∧
    (∀ (name : String) (m0 : List (String × Nat)) (pre rest : List Nat) (x y : Nat),
      List.Chain' (· ≤ ·) (pre ++ rest) →
      lookupMap m0 name = none →
      lookupMap (applyProgressSeq m0 name pre) name = some x →
      lookupMap (applyProgressSeq m0 name (pre ++ rest)) name = some y →
      x ≤ y) := by
  constructor
  · intro l1 l2 t h
    unfold progressPercent jsRound
    exact Nat.div_le_div_right (by omega)
  · intro name m0 pre rest x y hchain h0 hx hy
    by_cases hpre : pre = []
    · subst hpre
      simp only [applyProgressSeq, List.foldl_nil] at hx
      rw [h0] at hx
      exact Option.noConfusion hx
    · have hall : pre ++ rest ≠ [] := by
        intro h; exact hpre (List.append_eq_nil.mp h).1
      rw [applyProgressSeq_lookup name pre m0 hpre] at hx
      rw [applyProgressSeq_lookup name (pre ++ rest) m0 hall] at hy
      have hx' : pre.getLast? = some x := by
        rw [List.getLast?_eq_getLast_of_ne_nil hpre]; exact hx
      have hy' : (pre ++ rest).getLast? = some y := by
        rw [List.getLast?_eq_getLast_of_ne_nil hall]; exact hy
      by_cases hrest : rest = []
      · subst hrest
        rw [List.append_nil] at hy'
        exact le_of_eq (Option.some_inj.mp (hx'.symm.trans hy'))
      · rw [List.getLast?_append_of_ne_nil pre hrest] at hy'
        have hxmem : x ∈ pre := by
          rcases List.mem_getLast?_eq_getLast (Option.mem_def.mpr hx') with ⟨h1, h2⟩
          exact h2 ▸ List.getLast_mem h1
        have hymem : y ∈ rest := by
          rcases List.mem_getLast?_eq_getLast (Option.mem_def.mpr hy') with ⟨h1, h2⟩
          exact h2 ▸ List.getLast_mem h1
        have hpair : List.Pairwise (· ≤ ·) (pre ++ rest) :=
          List.chain'_iff_pairwise.mp hchain
        exact (List.pairwise_append.mp hpair).2.2 x hxmem y hymem

/-- Witness for the amended C4: a monotone callback sequence yields a
non-regressing stored value on a concrete run. -/
theorem C4_witness : (10 : Nat) ≤ 50 :=
  C4_progress_monotone.2 "a.pdf" [] [10] [50] 10 50
    (by constructor <;> simp) rfl (by decide) (by decide)

/-- Claim C9 counterexample. In the Aborted terminal state the
selected-files list is *not* cleared: a one-file batch whose upload
fails ends with `files` still equal to `["a.pdf"]` (only the success
path runs `setFiles([])`), contradicting the claim that both parts of
the active-batch working set are cleared in every terminal state. -/
theorem C9_counterexample :
    (handleUpload ⟨["a.pdf"], true, "", [("a.pdf", 40)], [], [], false⟩
        (fun _ => UploadResult.noResponse)).failed = some "a.pdf" ∧
    (handleUpload ⟨["a.pdf"], true, "", [("a.pdf", 40)], [], [], false⟩
        (fun _ => UploadResult.noResponse)).state.files = ["a.pdf"] := by
  constructor <;> rfl

/-- Claim C9 amended. On the Completed terminal state both the
selected-files list and the progress map are cleared; on the Aborted
terminal state only the progress map is cleared while the selected
files are retained. In both cases `uploading` is reset, the chunk
counts recorded for the files completed in this batch are retained,
and the fields not touched by the batch (document list, loading flag)
are unchanged; the recorded chunk counts are discarded when the next
selection with at least one valid file arrives. -/
theorem C9_terminal_state :
    (∀ (s : UploadState) (res : String → UploadResult) (cfun : String → Nat),
      s.files ≠ [] → s.files.Nodup →
      (∀ f ∈ s.files, res f = UploadResult.ok (cfun f)) →
      (handleUpload s res).state.files = [] ∧
      (handleUpload s res).state.uploadProgress = [] ∧
      (handleUpload s res).state.uploading = false ∧
      (handleUpload s res).state.chunksProcessed = s.files.map (fun f => (f, cfun f)) ∧
      (handleUpload s res).failed = none ∧
      (handleUpload s res).state.message = "All files uploaded successfully!" ∧
      (handleUpload s res).state.documents = s.documents ∧
      (handleUpload s res).state.loading = s.loading) ∧
    (∀ (s : UploadState) (res : String → UploadResult) (pre post : List String)
        (fk : String) (cfun : String → Nat),
      s.files = pre ++ fk :: post →
      (∀ f ∈ pre, res f = UploadResult.ok (cfun f)) → pre.Nodup →
      (∀ c, res fk ≠ UploadResult.ok c) →
      (handleUpload s res).state.files = s.files ∧
      (handleUpload s res).state.uploadProgress = [] ∧
      (handleUpload s res).state.uploading = false ∧
      (handleUpload s res).state.chunksProcessed = pre.map (fun f => (f, cfun f)) ∧
      (handleUpload s res).state.documents = s.documents ∧
      (handleUpload s res).state.loading = s.loading) ∧
    (∀ (s : UploadState) (selected : List (String × Nat)),
      (selected.filter (fun f => (validateFile f.1 f.2).isNone)).map Prod.fst ≠ [] →
      (handleFileChange s selected).chunksProcessed = []) := by
  refine ⟨?_, ?_, ?_⟩
  · intro s res cfun hne hnd hok
    have hloop : uploadLoop res s.files [] [] =
        (s.files.map (fun f => (f, cfun f)), s.files, none) := by
      have := uploadLoop_ok_front res cfun s.files [] [] [] hok
      rw [List.append_nil] at this
      rw [this, foldl_updMap_fresh cfun s.files [] hnd (by intro f _; rfl)]
      simp [uploadLoop]
    unfold handleUpload
    simp [hne, hloop]
  · intro s res pre post fk cfun hfiles hpre hnd hfk
    have hne : s.files ≠ [] := by
      rw [hfiles]
      exact List.append_ne_nil_of_right_ne_nil pre (List.cons_ne_nil fk post)
    have hloop : uploadLoop res s.files [] [] =
        (pre.map (fun f => (f, cfun f)), pre ++ [fk], some (fk, res fk)) := by
      rw [hfiles, uploadLoop_ok_front res cfun pre (fk :: post) [] [] hpre,
        foldl_updMap_fresh cfun pre [] hnd (by intro f _; rfl),
        uploadLoop_fail_head res fk post _ _ hfk]
      simp
    unfold handleUpload
    simp [hne, hloop]
  · intro s selected hvalid
    unfold handleFileChange
    simp only []
    rw [if_neg (by intro hcontra; exact hvalid hcontra.2)]

/-- Witness for the amended C9: a concrete successful one-file batch
ends Completed with the working set cleared and the chunk count
recorded. -/
theorem C9_witness :
    (handleUpload ⟨["a.pdf"], false, "", [], [("old.txt", 2)], [], false⟩
        (fun _ => UploadResult.ok 7)).state.files = [] ∧
    (handleUpload ⟨["a.pdf"], false, "", [], [("old.txt", 2)], [], false⟩
        (fun _ => UploadResult.ok 7)).state.uploadProgress = [] ∧
    (handleUpload ⟨["a.pdf"], false, "", [], [("old.txt", 2)], [], false⟩
        (fun _ => UploadResult.ok 7)).state.chunksProcessed = [("a.pdf", 7)] := by
  have h := C9_terminal_state.1
    ⟨["a.pdf"], false, "", [], [("old.txt", 2)], [], false⟩
    (fun _ => UploadResult.ok 7) (fun _ => 7)
    (by decide) (by decide) (fun f _ => rfl)
  exact ⟨h.1, h.2.1, h.2.2.2.1⟩

/-! ## Chat data model (`Chat.tsx` interfaces) -/

/-- Field `Message.role`. -/
inductive Role where
  | user
  | assistant
deriving DecidableEq

/-- Field `Message.feedback` values. -/
inductive Feedback where
  | thumbsUp
  | thumbsDown
deriving DecidableEq

/-- The `Citation` interface: `{ url: string; title?: string }`. -/
structure Citation where
  url : String
  title : Option String
deriving DecidableEq

/-- The `DocumentSource` interface: `{ source: string; preview: string }`. -/
structure DocumentSource where
  source : String
  preview : String
deriving DecidableEq

/-- Field `Sources.type`. -/
inductive SourceType where
  | documents
  | web
deriving DecidableEq

/-- The `Sources` interface: the tag plus both (always present) arrays. -/
structure Sources where
  type : SourceType
  documents : List DocumentSource
  web : List Citation
deriving DecidableEq

/-- The `Message` interface; the optional fields are absent (`none`)
exactly when the JavaScript object lacks them. -/
structure Message where
  role : Role
  content : String
  sources : Option Sources
  feedback : Option Feedback
deriving DecidableEq

/-! ## Transcript persistence (`Chat.tsx`: `JSON.stringify(messages)` on
every change, `JSON.parse(savedMessages)` on restore)

`JSON.stringify`/`JSON.parse` are modelled at the level of JSON values:
serializing produces the JSON tree a `Message[]` stringifies to (fields
in insertion order, `undefined` fields dropped), and restoring reads a
JSON tree back as typed messages, exactly the shape the component
accesses after `JSON.parse`. Every leaf of a serialized message is a
string, so only strings, arrays and objects are needed. -/

inductive Json where
  | str (s : String)
  | arr (elems : List Json)
  | obj (fields : List (String × Json))

/-- Property access `fields[name]` on a parsed JSON object. -/
def lookupField (fields : List (String × Json)) (name : String) : Option Json :=
  (fields.find? (fun f => f.1 == name)).map (·.2)

def encodeRole : Role → Json
  | .user => .str "user"
  | .assistant => .str "assistant"

def encodeFeedback : Feedback → Json
  | .thumbsUp => .str "thumbsUp"
  | .thumbsDown => .str "thumbsDown"

def encodeSourceType : SourceType → Json
  | .documents => .str "documents"
  | .web => .str "web"

def encodeDocumentSource (d : DocumentSource) : Json :=
  .obj [("source", .str d.source), ("preview", .str d.preview)]

def encodeCitation (c : Citation) : Json :=
  .obj (("url", Json.str c.url) ::
    (match c.title with
     | some t => [("title", Json.str t)]
     | none => []))

def encodeSources (s : Sources) : Json :=
  .obj [("type", encodeSourceType s.type),
        ("documents", .arr (s.documents.map encodeDocumentSource)),
        ("web", .arr (s.web.map encodeCitation))]

/-- The JSON object a `Message` stringifies to: `role` and `content`
always present, `sources` and `feedback` present only when defined
(`JSON.stringify` drops `undefined` properties). -/
def encodeMessage (m : Message) : Json :=
  .obj ([("role", encodeRole m.role), ("content", Json.str m.content)] ++
    (match m.sources with
     | some s => [("sources", encodeSources s)]
     | none => []) ++
    (match m.feedback with
     | some f => [("feedback", encodeFeedback f)]
     | none => []))

/-- The JSON value written to the `'chatMessages'` key. -/
def stringifyMessages (ms : List Message) : Json :=
  .arr (ms.map encodeMessage)

def decodeRole : Json → Option Role
  | .str "user" => some .user
  | .str "assistant" => some .assistant
  | _ => none

def decodeFeedback : Json → Option Feedback
  | .str "thumbsUp" => some .thumbsUp
  | .str "thumbsDown" => some .thumbsDown
  | _ => none

def decodeSourceType : Json → Option SourceType
  | .str "documents" => some .documents
  | .str "web" => some .web
  | _ => none

def decodeDocumentSource : Json → Option DocumentSource
  | .obj fields =>
    match lookupField fields "source", lookupField fields "preview" with
    | some (.str s), some (.str p) => some ⟨s, p⟩
    | _, _ => none
  | _ => none

def decodeCitation : Json → Option Citation
  | .obj fields =>
    match lookupField fields "url" with
    | some (.str u) =>
      some ⟨u,
        match lookupField fields "title" with
        | some (.str t) => some t
        | _ => none⟩
    | _ => none
  | _ => none

/-- Reading each element of a JSON array with a given element reader. -/
def decodeList (dec : Json → Option α) : List Json → Option (List α)
  | [] => some []
  | j :: rest =>
    match dec j, decodeList dec rest with
    | some a, some as => some (a :: as)
    | _, _ => none

def decodeSources : Json → Option Sources
  | .obj fields =>
    match lookupField fields "type", lookupField fields "documents",
        lookupField fields "web" with
    | some tj, some (.arr ds), some (.arr ws) =>
      match decodeSourceType tj, decodeList decodeDocumentSource ds,
          decodeList decodeCitation ws with
      | some t, some docs, some webs => some ⟨t, docs, webs⟩
      | _, _, _ => none
    | _, _, _ => none
  | _ => none

/-- Reading an optional property: an absent field is `none`, a present
field must decode. -/
def decodeOptField (fields : List (String × Json)) (name : String)
    (dec : Json → Option α) : Option (Option α) :=
  match lookupField fields name with
  | none => some none
  | some j => (dec j).map some

def decodeMessage : Json → Option Message
  | .obj fields =>
    match lookupField fields "role", lookupField fields "content" with
    | some rj, some (.str c) =>
      match decodeRole rj, decodeOptField fields "sources" decodeSources,
          decodeOptField fields "feedback" decodeFeedback with
      | some r, some srcs, some fb => some ⟨r, c, srcs, fb⟩
      | _, _, _ => none
    | _, _ => none
  | _ => none

/-- Reading the value stored under `'chatMessages'` back as the typed
message sequence. -/
def parseMessages : Json → Option (List Message)
  | .arr elems => decodeList decodeMessage elems
  | _ => none

/-! Round-trip lemmas for the persisted transcript. -/

theorem decodeDocumentSource_encode (d : DocumentSource) :
    decodeDocumentSource (encodeDocumentSource d) = some d := rfl

theorem decodeCitation_encode (c : Citation) :
    decodeCitation (encodeCitation c) = some c := by
  obtain ⟨u, title⟩ := c
  cases title <;> rfl

theorem decodeList_map_encode (dec : Json → Option α) (enc : α → Json)
    (l : List α) (h : ∀ a ∈ l, dec (enc a) = some a) :
    decodeList dec (l.map enc) = some l := by
  induction l with
  | nil => rfl
  | cons a rest ih =>
    have ha := h a (List.mem_cons_self a rest)
    have hrest := ih (fun b hb => h b (List.mem_cons_of_mem a hb))
    simp [decodeList, ha, hrest]

theorem decodeSources_encode (s : Sources) :
    decodeSources (encodeSources s) = some s := by
  obtain ⟨t, docs, webs⟩ := s
  have hd := decodeList_map_encode decodeDocumentSource encodeDocumentSource
    docs (fun d _ => decodeDocumentSource_encode d)
  have hw := decodeList_map_encode decodeCitation encodeCitation
    webs (fun c _ => decodeCitation_encode c)
  cases t <;>
    simp +decide [encodeSources, decodeSources, encodeSourceType,
      decodeSourceType, lookupField, hd, hw]

theorem decodeMessage_encode (m : Message) :
    decodeMessage (encodeMessage m) = some m := by
  obtain ⟨r, c, srcs, fb⟩ := m
  cases r <;> rcases srcs with _ | s <;> rcases fb with _ | f <;> (try cases f) <;>
    simp +decide [encodeMessage, decodeMessage, encodeRole, decodeRole,
      encodeFeedback, decodeFeedback, decodeOptField, lookupField,
      decodeSources_encode]

/-- Claim C3. Serialize–then–deserialize is the identity on transcripts:
for every sequence of messages — any mix of roles, documents-variant
and web-variant `Sources`, and feedback annotations — parsing the
serialized form yields exactly the original sequence, preserving order,
the tagged-union `Sources` shape, and feedback values. -/
theorem C3_transcript_round_trip (ms : List Message) :
    parseMessages (stringifyMessages ms) = some ms := by
  unfold parseMessages stringifyMessages
  exact decodeList_map_encode decodeMessage encodeMessage ms
    (fun m _ => decodeMessage_encode m)

/-! ## Chat session state machine (`Chat.tsx`) -/

/-- The `Chat` component state touched by `handleSubmit`. -/
structure ChatState where
  messages : List Message
  input : String
  loading : Bool
  language : String
deriving DecidableEq

/-- The remote call issued by the synchronous part of `handleSubmit`,
if any. -/
inductive ChatRequest where
  | noCall
  | ask (question : String) (language : String)
deriving DecidableEq

/-- The synchronous part of `handleSubmit`, up to issuing the request:
`if (!input.trim() || loading) return;` otherwise the input is cleared,
`loading` is set, the trimmed question is appended as a user message
and `chatWithRAG(question, language)` is issued. -/
def handleSubmitStart (s : ChatState) : ChatState × ChatRequest :=
  if jsTrim s.input = "" ∨ s.loading then (s, ChatRequest.noCall)
  else
    ({ s with
        input := "",
        loading := true,
        messages := s.messages ++
          [{ role := Role.user, content := jsTrim s.input,
             sources := none, feedback := none }] },
     ChatRequest.ask (jsTrim s.input) s.language)

/-- The outcome of the awaited `chatWithRAG` call as inspected by
`handleSubmit`'s `catch` block. -/
inductive ChatResult where
  | ok (answer : String) (sources : Option Sources)
  | httpError (status : Nat) (detail : Option String)
  | netError
deriving DecidableEq

/-- The error text synthesized by the `catch` block: a 401 response
maps to the missing-keys hint, another response with a `detail` field
maps to that detail, anything else to the generic apology. -/
def chatErrorMessage : ChatResult → String
  | .httpError 401 _ => "Please add your API keys in the Settings page first."
  | .httpError _ (some d) => d
  | _ => "Sorry, I encountered an error. Please try again."

/-- Resolution of the awaited call: the assistant message (answer with
sources, or synthesized error text without sources) is appended and the
`finally` block clears `loading`. -/
def handleSubmitResolve (s : ChatState) (r : ChatResult) : ChatState :=
  match r with
  | .ok answer sources =>
    { s with
        messages := s.messages ++
          [{ role := Role.assistant, content := answer,
             sources := sources, feedback := none }],
        loading := false }
  | e =>
    { s with
        messages := s.messages ++
          [{ role := Role.assistant, content := chatErrorMessage e,
             sources := none, feedback := none }],
        loading := false }

/-- Function `handleFeedback` from `Chat.tsx`: only a `thumbsUp` value mutates
the state — it overwrites the `feedback` field of the message at the
given index, with no check of that message's role. A `thumbsDown`
click opens the feedback modal instead and records nothing.
(JavaScript's out-of-range array extension is not modelled; the claims
concern in-range indices, where `List.set` coincides with the array
update.) -/
def handleFeedback (msgs : List Message) (messageIndex : Nat) (fb : Feedback) :
    List Message :=
  match fb with
  | .thumbsUp =>
    match msgs[messageIndex]? with
    | some m => msgs.set messageIndex { m with feedback := some Feedback.thumbsUp }
    | none => msgs
  | .thumbsDown => msgs

/-- The invariant that no user-role message carries sources or
feedback. -/
def userClean (msgs : List Message) : Prop :=
  ∀ m ∈ msgs, m.role = Role.user → m.sources = none ∧ m.feedback = none

/-! ## Credential saving (`Settings.tsx`: `saveKeys`) -/

/-- The two `localStorage` keys written by `saveKeys`. -/
structure KeyStore where
  openAiKey : Option String
  tavilyKey : Option String
deriving DecidableEq

/-- Outcome of the `POST /validate_keys` fetch: a 2xx response
(`response.ok`), a non-2xx response (whose body may carry a `detail`),
or a network failure (the fetch rejects). -/
inductive ValidateKeysResult where
  | ok
  | httpError (detail : Option String)
  | networkError
deriving DecidableEq

/-- Function `saveKeys` from `Settings.tsx`, with the remote validation outcome
for the trimmed key pair supplied as `validation`. Returns the
persisted store after the call and whether the save succeeded: blank
keys short-circuit before any network use; both keys are persisted,
together, exactly when validation succeeds; every failure path leaves
the store untouched. -/
def saveKeys (openAiKey tavilyKey : String) (validation : ValidateKeysResult)
    (store : KeyStore) : KeyStore × Bool :=
  if jsTrim openAiKey = "" ∨ jsTrim tavilyKey = "" then (store, false)
  else
    match validation with
    | .ok => (⟨some (jsTrim openAiKey), some (jsTrim tavilyKey)⟩, true)
    | _ => (store, false)

/-- Claim C5. At most one ask is outstanding: while a chat request is
pending (`loading = true`) a second `handleSubmit` is rejected — the
state is unchanged and no request is issued; and a successful
submission from a non-pending state appends exactly the one pending
user message and issues exactly that question, so transcript order
matches request-issue order. -/
theorem C5_single_outstanding_ask :
    (∀ s : ChatState, s.loading = true →
      handleSubmitStart s = (s, ChatRequest.noCall)) ∧
    (∀ s : ChatState, s.loading = false → jsTrim s.input ≠ "" →
      (handleSubmitStart s).1.messages =
        s.messages ++ [{ role := Role.user, content := jsTrim s.input,
                         sources := none, feedback := none }] ∧
      (handleSubmitStart s).1.loading = true ∧
      (handleSubmitStart s).2 = ChatRequest.ask (jsTrim s.input) s.language) := by
  constructor
  · intro s h
    unfold handleSubmitStart
    rw [if_pos (Or.inr h)]
  · intro s hl hi
    have hcond : ¬(jsTrim s.input = "" ∨ s.loading = true) := by
      rintro (h | h)
      · exact hi h
      · rw [hl] at h; exact Bool.false_ne_true h
    unfold handleSubmitStart
    rw [if_neg hcond]
    exact ⟨rfl, rfl, rfl⟩

/-- Witness for C5: a pending state rejects a second submit. -/
theorem C5_witness :
    handleSubmitStart ⟨[], "next question", true, "English"⟩ =
      (⟨[], "next question", true, "English"⟩, ChatRequest.noCall) :=
  C5_single_outstanding_ask.1 ⟨[], "next question", true, "English"⟩ rfl

/-- Claim C10. Submitting an empty or whitespace-only question is a
no-op: the state (and hence both the in-memory transcript and its
persisted image, a function of `messages`) is unchanged and no request
is issued. -/
theorem C10_blank_input_noop (s : ChatState) (h : jsTrim s.input = "") :
    handleSubmitStart s = (s, ChatRequest.noCall) := by
  unfold handleSubmitStart
  rw [if_pos (Or.inl h)]

/-- Witness for C10: a whitespace-only input changes nothing. -/
theorem C10_witness :
    handleSubmitStart ⟨[], "   ", false, "English"⟩ =
      (⟨[], "   ", false, "English"⟩, ChatRequest.noCall) :=
  C10_blank_input_noop ⟨[], "   ", false, "English"⟩ (by decide)

/-- Claim C6 counterexample. `handleFeedback` performs no role check: at
an index holding a user message, a `thumbsUp` call does not fail — it
mutates the state and attaches feedback to the user message,
contradicting the claim that the operation fails whenever the index
does not refer to an assistant message. -/
theorem C6_counterexample :
    handleFeedback [⟨Role.user, "hi", none, none⟩] 0 Feedback.thumbsUp =
      [⟨Role.user, "hi", none, some Feedback.thumbsUp⟩] ∧
    ([⟨Role.user, "hi", none, some Feedback.thumbsUp⟩] : List Message) ≠
      [⟨Role.user, "hi", none, none⟩] := by
  constructor
  · rfl
  · decide

/-- Claim C6 amended. `handleSubmit` appends user messages without
sources or feedback, and every session step preserves the invariant
that user messages carry neither field, *provided* feedback is applied
only at indices holding assistant messages (which is how the UI invokes
it — the handler itself performs no role check). -/
theorem C6_user_messages_clean :
    (∀ s : ChatState, userClean s.messages →
      userClean (handleSubmitStart s).1.messages) ∧
    (∀ (s : ChatState) (r : ChatResult), userClean s.messages →
      userClean (handleSubmitResolve s r).messages) ∧
    (∀ (msgs : List Message) (i : Nat) (fb : Feedback) (m : Message),
      userClean msgs → msgs[i]? = some m → m.role = Role.assistant →
      userClean (handleFeedback msgs i fb)) := by
  refine ⟨?_, ?_, ?_⟩
  · intro s hclean
    unfold handleSubmitStart
    by_cases hcond : jsTrim s.input = "" ∨ s.loading = true
    · rw [if_pos hcond]; exact hclean
    · rw [if_neg hcond]
      intro m hm hrole
      rcases List.mem_append.mp hm with hold | hnew
      · exact hclean m hold hrole
      · rw [List.mem_singleton.mp hnew]
        exact ⟨rfl, rfl⟩
  · intro s r hclean
    have happend : ∀ (msg : Message), msg.role = Role.assistant →
        userClean (s.messages ++ [msg]) := by
      intro msg hrole m hm hruser
      rcases List.mem_append.mp hm with hold | hnew
      · exact hclean m hold hruser
      · rw [List.mem_singleton.mp hnew] at hruser
        rw [hrole] at hruser
        exact absurd hruser (by decide)
    cases r with
    | ok answer sources => exact happend _ rfl
    | httpError st d => exact happend _ rfl
    | netError => exact happend _ rfl
  · intro msgs i fb m hclean hget hrole
    cases fb with
    | thumbsDown => exact hclean
    | thumbsUp =>
      unfold handleFeedback
      rw [hget]
      intro m' hm' hruser
      rcases List.mem_or_eq_of_mem_set hm' with hold | hnew
      · exact hclean m' hold hruser
      · rw [hnew] at hruser
        have : m.role = Role.user := hruser
        rw [hrole] at this
        exact absurd this (by decide)

/-- Witness for the amended C6: feedback applied at an assistant index
keeps a concrete transcript clean of user-message annotations. -/
theorem C6_witness :
    userClean (handleFeedback
      [⟨Role.user, "q", none, none⟩, ⟨Role.assistant, "a", none, none⟩]
      1 Feedback.thumbsUp) :=
  C6_user_messages_clean.2.2
    [⟨Role.user, "q", none, none⟩, ⟨Role.assistant, "a", none, none⟩]
    1 Feedback.thumbsUp ⟨Role.assistant, "a", none, none⟩
    (by
      intro m hm hrole
      rcases List.mem_cons.mp hm with h | h
      · rw [h]; exact ⟨rfl, rfl⟩
      · rw [List.mem_singleton.mp h] at hrole
        exact absurd hrole (by decide))
    rfl rfl

/-- Claim C7 counterexample. Overwrite-correctness fails when the later
value is `thumbsDown`: annotating index 0 with `thumbsUp` and then with
`thumbsDown` leaves the feedback at `thumbsUp`, not at the later value,
because `handleFeedback` ignores `thumbsDown` entirely. -/
theorem C7_counterexample :
    handleFeedback (handleFeedback [⟨Role.assistant, "a", none, none⟩]
        0 Feedback.thumbsUp) 0 Feedback.thumbsDown =
      [⟨Role.assistant, "a", none, some Feedback.thumbsUp⟩] ∧
    some Feedback.thumbsUp ≠ some Feedback.thumbsDown := by
  constructor
  · rfl
  · decide

/-- Claim C7 amended. `handleFeedback` is idempotent (repeating an
identical call changes nothing further); a `thumbsDown` call is a
no-op; and a later `thumbsUp` call overwrites whatever feedback the
message carried — so overwrite-correctness holds exactly when the later
value is `thumbsUp`. -/
theorem C7_feedback_idempotent :
    (∀ (msgs : List Message) (i : Nat) (fb : Feedback),
      handleFeedback (handleFeedback msgs i fb) i fb = handleFeedback msgs i fb) ∧
    (∀ (msgs : List Message) (i : Nat),
      handleFeedback msgs i Feedback.thumbsDown = msgs) ∧
    (∀ (msgs : List Message) (i : Nat) (fb1 : Feedback) (m : Message),
      msgs[i]? = some m →
      (handleFeedback (handleFeedback msgs i fb1) i Feedback.thumbsUp)[i]? =
        some { m with feedback := some Feedback.thumbsUp }) := by
  have hup : ∀ (msgs : List Message) (i : Nat) (m : Message), msgs[i]? = some m →
      handleFeedback msgs i Feedback.thumbsUp =
        msgs.set i { m with feedback := some Feedback.thumbsUp } := by
    intro msgs i m hget
    unfold handleFeedback
    rw [hget]
  have hnone : ∀ (msgs : List Message) (i : Nat), msgs[i]? = none →
      handleFeedback msgs i Feedback.thumbsUp = msgs := by
    intro msgs i hget
    unfold handleFeedback
    rw [hget]
  refine ⟨?_, ?_, ?_⟩
  · intro msgs i fb
    cases fb with
    | thumbsDown => rfl
    | thumbsUp =>
      cases hget : msgs[i]? with
      | none => rw [hnone msgs i hget, hnone msgs i hget]
      | some m =>
        have hlt : i < msgs.length := by
          by_contra hge
          rw [List.getElem?_eq_none (Nat.le_of_not_lt hge)] at hget
          exact Option.noConfusion hget
        rw [hup msgs i m hget]
        rw [hup _ i { m with feedback := some Feedback.thumbsUp }
          (by rw [List.getElem?_set_self (by simpa using hlt)])]
        rw [List.set_set]
  · intro msgs i; rfl
  · intro msgs i fb1 m hget
    have hlt : i < msgs.length := by
      by_contra hge
      rw [List.getElem?_eq_none (Nat.le_of_not_lt hge)] at hget
      exact Option.noConfusion hget
    cases fb1 with
    | thumbsDown =>
      have h1 : handleFeedback msgs i Feedback.thumbsDown = msgs := rfl
      rw [h1, hup msgs i m hget, List.getElem?_set_self hlt]
    | thumbsUp =>
      rw [hup msgs i m hget]
      rw [hup _ i { m with feedback := some Feedback.thumbsUp }
        (by rw [List.getElem?_set_self (by simpa using hlt)])]
      rw [List.set_set,
        List.getElem?_set_self (by simpa using hlt)]

/-- Witness for the amended C7: on a concrete transcript, a
`thumbsDown` followed by a `thumbsUp` leaves the later `thumbsUp` in
effect. -/
theorem C7_witness :
    (handleFeedback (handleFeedback [⟨Role.assistant, "hello", none, none⟩]
        0 Feedback.thumbsDown) 0 Feedback.thumbsUp)[0]? =
      some ⟨Role.assistant, "hello", none, some Feedback.thumbsUp⟩ :=
  C7_feedback_idempotent.2.2 [⟨Role.assistant, "hello", none, none⟩]
    0 Feedback.thumbsDown ⟨Role.assistant, "hello", none, none⟩ rfl

/-- Claim C8. Credential save is atomic: `saveKeys` persists nothing on a
blank key, a non-2xx validation response, or a network failure — the
prior store is retained unchanged; exactly when validation succeeds,
both (trimmed) keys are persisted together; consequently a store that
is fully absent or fully present stays so. -/
theorem C8_saveKeys_atomic (a b : String) (v : ValidateKeysResult) (st : KeyStore) :
    ((jsTrim a = "" ∨ jsTrim b = "" ∨ v ≠ ValidateKeysResult.ok) →
      saveKeys a b v st = (st, false)) ∧
    (jsTrim a ≠ "" → jsTrim b ≠ "" → v = ValidateKeysResult.ok →
      saveKeys a b v st = (⟨some (jsTrim a), some (jsTrim b)⟩, true)) ∧
    (st.openAiKey.isSome = st.tavilyKey.isSome →
      (saveKeys a b v st).1.openAiKey.isSome =
        (saveKeys a b v st).1.tavilyKey.isSome) := by
  refine ⟨?_, ?_, ?_⟩
  · intro h
    unfold saveKeys
    by_cases hblank : jsTrim a = "" ∨ jsTrim b = ""
    · rw [if_pos hblank]
    · rw [if_neg hblank]
      rcases h with h | h | h
      · exact absurd (Or.inl h) hblank
      · exact absurd (Or.inr h) hblank
      · cases v with
        | ok => exact absurd rfl h
        | httpError d => rfl
        | networkError => rfl
  · intro ha hb hok
    subst hok
    unfold saveKeys
    rw [if_neg (fun h => Or.elim h ha hb)]
  · intro hsame
    unfold saveKeys
    by_cases hblank : jsTrim a = "" ∨ jsTrim b = ""
    · rw [if_pos hblank]; exact hsame
    · rw [if_neg hblank]
      cases v with
      | ok => rfl
      | httpError d => exact hsame
      | networkError => exact hsame

/-- Witness for C8: a successful validation persists both keys
together from an empty store. -/
theorem C8_witness :
    saveKeys "sk-test" "tvly-test" ValidateKeysResult.ok ⟨none, none⟩ =
      (⟨some (jsTrim "sk-test"), some (jsTrim "tvly-test")⟩, true) :=
  (C8_saveKeys_atomic "sk-test" "tvly-test" ValidateKeysResult.ok ⟨none, none⟩).2.1
    (by decide) (by decide) rfl

end OnboardAI
